import Mathlib

/-!
Verification of the bentobox instance runtime against its specification.

Each Rust function under scrutiny is shallowly embedded as an executable
Lean definition translated from the source in `crates/bento-runtime/src`.
Strings are modelled as `List Char`, byte buffers and streams as `List Nat`
(each element a byte value), and the filesystem effects each function
performs are made explicit as state passed in and out.
-/

namespace Bentobox

/-! ## Disk configuration and root-disk resolution (`instance.rs`) -/

inductive DiskRole where
  | root
  | data
deriving DecidableEq, Repr

/-- `DiskConfig` from `instance.rs`: a configured disk entry with a path,
an optional role and an optional read-only flag. -/
structure DiskConfig where
  path : List Char
  role : Option DiskRole
  read_only : Option Bool
deriving DecidableEq, Repr

inductive InstanceDiskError where
  | multipleRootDisks (count : Nat)
deriving DecidableEq, Repr

/-- A fully resolved disk, as produced by `resolve_config_disk`. -/
structure InstanceDisk where
  path : List Char
  read_only : Bool
deriving DecidableEq, Repr

/-- The role a disk entry resolves to: `disk.role.unwrap_or(DiskRole::Root)`. -/
def diskRoleOf (d : DiskConfig) : DiskRole :=
  d.role.getD .root

/-- The sub-list of entries whose role resolves to root, in order.
`Instance::partition_disks` keeps the first of these and counts them all. -/
def rootEntries (disks : List DiskConfig) : List DiskConfig :=
  disks.filter (fun d => diskRoleOf d = .root)

/-- The sub-list of entries whose role resolves to data, in order. -/
def dataEntries (disks : List DiskConfig) : List DiskConfig :=
  disks.filter (fun d => diskRoleOf d = .data)

/-- `Instance::partition_disks`: single pass over the configured disks that
records the first root-resolving entry, counts root-resolving entries and
collects data entries in order; more than one root entry is an error carrying
the full count. -/
def partition_disks (disks : List DiskConfig) :
    Except InstanceDiskError (Option DiskConfig × List DiskConfig) :=
  let roots := rootEntries disks
  if roots.length > 1 then
    .error (.multipleRootDisks roots.length)
  else
    .ok (roots.head?, dataEntries disks)

/-- `Instance::resolve_config_disk`, with path resolution against the
instance directory abstracted as the function `resolve`. -/
def resolve_config_disk (resolve : List Char → List Char) (d : DiskConfig) :
    InstanceDisk :=
  { path := resolve d.path, read_only := d.read_only.getD false }

/-- `Instance::root_disk`. `defaultRootPath` stands for
`self.file(InstanceFile::RootDisk)` (the `rootfs.img` path inside the
instance directory) and `defaultRootIsFile` for the
`fs::metadata(..).is_file()` probe on it. -/
def root_disk (resolve : List Char → List Char) (disks : List DiskConfig)
    (defaultRootPath : List Char) (defaultRootIsFile : Bool) :
    Except InstanceDiskError (Option InstanceDisk) :=
  match partition_disks disks with
  | .error e => .error e
  | .ok (root, _) =>
    match root with
    | some r => .ok (some (resolve_config_disk resolve r))
    | none =>
      if disks ≠ [] then .ok none
      else if defaultRootIsFile then
        .ok (some { path := defaultRootPath, read_only := false })
      else .ok none

/-! ## Image id derivation (`images/store.rs`) -/

/-- The 7 characters of the digest algorithm tag stripped by
`image_id_from_digest`. -/
def sha256Tag : List Char := ['s', 'h', 'a', '2', '5', '6', ':']

/-- `str::strip_prefix`: match the pattern character by character,
returning the remainder on success. -/
def stripTag : List Char → List Char → Option (List Char)
  | [], s => some s
  | _ :: _, [] => none
  | p :: ps, c :: cs => if c = p then stripTag ps cs else none

/-- `digest.strip_prefix("sha256:")`. -/
def stripSha256 (s : List Char) : Option (List Char) :=
  stripTag sha256Tag s

/-- `image_id_from_digest` from `images/store.rs`: strip one leading
`sha256:` tag when present, otherwise return the digest unchanged. -/
def image_id_from_digest (digest : List Char) : List Char :=
  match stripSha256 digest with
  | some rest => rest
  | none => digest

/-- Lower-case hexadecimal digit, the alphabet of sha-256 digest payloads. -/
def isHexDigit (c : Char) : Bool :=
  (48 ≤ c.toNat && c.toNat ≤ 57) || (97 ≤ c.toNat && c.toNat ≤ 102)

/-- A valid manifest digest: the `sha256:` algorithm tag followed by a
non-empty lower-case hex payload. -/
def ValidManifestDigest (s : List Char) : Prop :=
  ∃ h, s = sha256Tag ++ h ∧ h ≠ [] ∧ ∀ c ∈ h, isHexDigit c

/-! ## Control protocol line framing (`instance_control.rs`) -/

/-- I/O error kinds surfaced by the embedded functions
(`std::io::ErrorKind` values actually used, plus raw OS error codes). -/
inductive IoErr where
  | invalidData
  | unexpectedEof
  | osError (code : Int)
deriving DecidableEq, Repr

/-- `MAX_CONTROL_LINE_BYTES`: 16 KiB. -/
def MAX_CONTROL_LINE_BYTES : Nat := 16 * 1024

/-- The byte-accumulation loop of `read_json_line`: read one byte at a
time, stop at end of stream or at a newline, and fail with `InvalidData`
as soon as the accumulated line exceeds `MAX_CONTROL_LINE_BYTES`.
Returns the accumulated line and the unread remainder of the stream. -/
def readLineGo : List Nat → List Nat → Except IoErr (List Nat × List Nat)
  | buf, [] => .ok (buf, [])
  | buf, b :: rest =>
    if b = 10 then .ok (buf, rest)
    else
      let buf2 := buf ++ [b]
      if buf2.length > MAX_CONTROL_LINE_BYTES then .error .invalidData
      else readLineGo buf2 rest

/-- Continuation byte of a UTF-8 sequence. -/
def isCont (b : Nat) : Bool := 128 ≤ b && b ≤ 191

/-- UTF-8 validity of a byte sequence, as checked by Rust's
`String::from_utf8` (rejecting overlong forms, surrogates and
out-of-range code points). The fuel argument only forces structural
recursion; every step consumes at least one byte, so fuel equal to the
length of the input (as passed by `validUtf8`) never runs out. -/
def validUtf8Go : Nat → List Nat → Bool
  | _, [] => true
  | 0, _ :: _ => false
  | fuel + 1, b :: rest =>
    if b ≤ 127 then validUtf8Go fuel rest
    else if 194 ≤ b && b ≤ 223 then
      match rest with
      | c1 :: r => isCont c1 && validUtf8Go fuel r
      | [] => false
    else if b = 224 then
      match rest with
      | c1 :: c2 :: r => (160 ≤ c1 && c1 ≤ 191) && isCont c2 && validUtf8Go fuel r
      | _ => false
    else if 225 ≤ b && b ≤ 236 then
      match rest with
      | c1 :: c2 :: r => isCont c1 && isCont c2 && validUtf8Go fuel r
      | _ => false
    else if b = 237 then
      match rest with
      | c1 :: c2 :: r => (128 ≤ c1 && c1 ≤ 159) && isCont c2 && validUtf8Go fuel r
      | _ => false
    else if 238 ≤ b && b ≤ 239 then
      match rest with
      | c1 :: c2 :: r => isCont c1 && isCont c2 && validUtf8Go fuel r
      | _ => false
    else if b = 240 then
      match rest with
      | c1 :: c2 :: c3 :: r =>
        (144 ≤ c1 && c1 ≤ 191) && isCont c2 && isCont c3 && validUtf8Go fuel r
      | _ => false
    else if 241 ≤ b && b ≤ 243 then
      match rest with
      | c1 :: c2 :: c3 :: r => isCont c1 && isCont c2 && isCont c3 && validUtf8Go fuel r
      | _ => false
    else if b = 244 then
      match rest with
      | c1 :: c2 :: c3 :: r =>
        (128 ≤ c1 && c1 ≤ 143) && isCont c2 && isCont c3 && validUtf8Go fuel r
      | _ => false
    else false

/-- UTF-8 validity of a byte sequence. -/
def validUtf8 (s : List Nat) : Bool := validUtf8Go s.length s

/-- `read_json_line`: accumulate one newline-terminated line (16 KiB cap),
then validate it as UTF-8; the returned line is the byte sequence of the
resulting string. -/
def read_json_line (s : List Nat) : Except IoErr (List Nat × List Nat) :=
  match readLineGo [] s with
  | .error e => .error e
  | .ok (line, rest) =>
    if validUtf8 line then .ok (line, rest) else .error .invalidData

/-- `write_json_line`: the bytes appended to the stream — the
serialization of the message followed by a single newline. `ser` stands
for `serde_json::to_vec`. -/
def write_json_line {μ : Type} (ser : μ → List Nat) (v : μ) : List Nat :=
  ser v ++ [10]

/-- `ControlRequest::read_from` / `ControlResponse::read_from`: read one
line; an empty line means the stream closed before a message
(`UnexpectedEof`); otherwise parse it, turning parse failures into
`InvalidData`. `par` stands for `serde_json::from_str`. -/
def read_from {μ : Type} (par : List Nat → Option μ) (s : List Nat) :
    Except IoErr (μ × List Nat) :=
  match read_json_line s with
  | .error e => .error e
  | .ok (line, rest) =>
    if line = [] then .error .unexpectedEof
    else
      match par line with
      | some m => .ok (m, rest)
      | none => .error .invalidData

/-! ## PID file probing (`utils.rs`) -/

/-- The Unicode `White_Space` set trimmed by Rust's `str::trim`. -/
def isRustWhitespace (c : Char) : Bool :=
  c.toNat = 9 || c.toNat = 10 || c.toNat = 11 || c.toNat = 12 || c.toNat = 13 ||
  c.toNat = 32 || c.toNat = 133 || c.toNat = 160 || c.toNat = 5760 ||
  (8192 ≤ c.toNat && c.toNat ≤ 8202) || c.toNat = 8232 || c.toNat = 8233 ||
  c.toNat = 8239 || c.toNat = 8287 || c.toNat = 12288

/-- `str::trim`: drop leading and trailing whitespace. -/
def strTrim (s : List Char) : List Char :=
  ((s.dropWhile isRustWhitespace).reverse.dropWhile isRustWhitespace).reverse

/-- Decimal value of an ASCII digit string. -/
def digitsToNat (ds : List Char) : Nat :=
  ds.foldl (fun a c => a * 10 + (c.toNat - 48)) 0

/-- `str::parse::<i32>`: an optional sign followed by at least one ASCII
digit, rejecting any other character and any value outside the `i32`
range. -/
def parse_i32 (s : List Char) : Option Int :=
  match s with
  | [] => none
  | c :: rest =>
    let signed : Bool × List Char :=
      if c = '-' then (true, rest)
      else if c = '+' then (false, rest)
      else (false, s)
    let digits := signed.2
    if digits = [] then none
    else if digits.all (fun d => 48 ≤ d.toNat && d.toNat ≤ 57) then
      let v : Int := if signed.1 then -(digitsToNat digits : Int) else digitsToNat digits
      if -(2 ^ 31) ≤ v ∧ v ≤ 2 ^ 31 - 1 then some v else none
    else none

/-- Outcome of the `libc::kill(pid, 0)` liveness probe. -/
inductive KillResult where
  | success
  | esrch
  | eperm
  | otherErr (code : Int)
deriving DecidableEq, Repr

/-- State of the PID file on disk as observed by `fs::read_to_string`. -/
inductive FileState where
  | missing
  | present (content : List Char)
  | readError (code : Int)
deriving DecidableEq, Repr

/-- `read_pid_file` from `utils.rs`: read the file (`NotFound` means no
pid), parse the trimmed content as an `i32`, reject zero, then probe the
process with signal 0. Returns the result together with the PID file's
state afterwards (the file is removed only for a stale `ESRCH` pid). -/
def read_pid_file (file : FileState) (probe : Int → KillResult) :
    Except IoErr (Option Int) × FileState :=
  match file with
  | .missing => (.ok none, .missing)
  | .readError code => (.error (.osError code), file)
  | .present raw =>
    match parse_i32 (strTrim raw) with
    | none => (.error .invalidData, file)
    | some pid =>
      if pid = 0 then (.error .invalidData, file)
      else
        match probe pid with
        | .success => (.ok (some pid), file)
        | .esrch => (.ok none, .missing)
        | .eperm => (.ok (some pid), file)
        | .otherErr code => (.error (.osError code), file)

/-! ## Serial hub (`instance_daemon.rs`) -/

inductive SerialAccess where
  | interactive
  | watch
deriving DecidableEq, Repr

/-- `SerialHub` state: the next subscriber id, the id of the interactive
subscriber when one is attached, and the registered subscriber ids (the
per-subscriber channels carry no further state relevant here). -/
structure SerialHub where
  next_id : Nat
  interactive_owner : Option Nat
  subscribers : List Nat
deriving DecidableEq, Repr

/-- `SerialHub::new`. -/
def SerialHub.new : SerialHub :=
  { next_id := 1, interactive_owner := none, subscribers := [] }

/-- `SerialHub::attach`: refuse an interactive attach while an interactive
owner is registered; otherwise allocate the next id, register it, and for
an interactive attach record it as the owner. -/
def SerialHub.attach (s : SerialHub) (access : SerialAccess) :
    Except Unit (Nat × SerialHub) :=
  if access = .interactive ∧ s.interactive_owner.isSome then .error ()
  else
    let id := s.next_id
    .ok (id,
      { next_id := id + 1,
        interactive_owner :=
          if access = .interactive then some id else s.interactive_owner,
        subscribers := s.subscribers ++ [id] })

/-- `SerialHub::detach`: drop the subscriber and clear the interactive
owner when it was this subscriber. -/
def SerialHub.detach (s : SerialHub) (id : Nat) : SerialHub :=
  { s with
    subscribers := s.subscribers.erase id,
    interactive_owner :=
      if s.interactive_owner = some id then none else s.interactive_owner }

/-- `SerialHub::can_write_input`: only the interactive owner may write. -/
def SerialHub.can_write_input (s : SerialHub) (id : Nat) : Bool :=
  s.interactive_owner = some id

/-- Hub states reachable from `SerialHub::new` through attaches and
detaches (`broadcast` only detaches disconnected subscribers, which the
`detach` step covers). -/
inductive SerialHub.Reachable : SerialHub → Prop where
  | new : SerialHub.Reachable SerialHub.new
  | attach {s s' : SerialHub} {a : SerialAccess} {id : Nat} :
      SerialHub.Reachable s → s.attach a = .ok (id, s') → SerialHub.Reachable s'
  | detach {s : SerialHub} (id : Nat) :
      SerialHub.Reachable s → SerialHub.Reachable (s.detach id)

/-! ## Image store registry (`images/store.rs`) -/

/-- A tag entry of `registry.json`: `name → image_id`. -/
structure ImageTag where
  name : List Char
  image_id : List Char
deriving DecidableEq, Repr

/-- An image record of `registry.json`; of its fields only the id (the
directory name under the store root) matters to `remove_image`. -/
structure ImageRecord where
  id : List Char
deriving DecidableEq, Repr

structure Registry where
  images : List ImageRecord
  tags : List ImageTag
deriving DecidableEq, Repr

/-- An image store: the in-memory registry plus the set of per-image
directories currently on disk under the store root, named by image id. -/
structure ImageStore where
  registry : Registry
  dirs : List (List Char)
deriving DecidableEq, Repr

inductive ImageStoreErr where
  | tagNotFound (tag : List Char)
deriving DecidableEq, Repr

/-- `position`/`remove` on the tag list: locate the first tag with the
given name, returning its image id and the list with that entry removed. -/
def removeFirstTag : List ImageTag → List Char → Option (List Char × List ImageTag)
  | [], _ => none
  | t :: rest, nm =>
    if t.name = nm then some (t.image_id, rest)
    else
      match removeFirstTag rest nm with
      | some (iid, rest2) => some (iid, t :: rest2)
      | none => none

/-- `position`/`remove` on the image list: locate the first record with the
given id, returning it and the list with that record removed. -/
def removeFirstImage : List ImageRecord → List Char → Option (ImageRecord × List ImageRecord)
  | [], _ => none
  | img :: rest, iid =>
    if img.id = iid then some (img, rest)
    else
      match removeFirstImage rest iid with
      | some (found, rest2) => some (found, img :: rest2)
      | none => none

/-- `ImageStore::remove_image`: drop the first tag with the given name
(error when absent); when no remaining tag references the same image id,
also remove the image record and, if its directory exists on disk, delete
that directory. -/
def remove_image (st : ImageStore) (tag_name : List Char) :
    Except ImageStoreErr ImageStore :=
  match removeFirstTag st.registry.tags tag_name with
  | none => .error (.tagNotFound tag_name)
  | some (image_id, tags2) =>
    let still_referenced := tags2.any (fun t => t.image_id = image_id)
    if still_referenced then
      .ok { st with registry := { st.registry with tags := tags2 } }
    else
      match removeFirstImage st.registry.images image_id with
      | none => .ok { st with registry := { st.registry with tags := tags2 } }
      | some (image, images2) =>
        let dirs2 :=
          if image.id ∈ st.dirs then st.dirs.erase image.id else st.dirs
        .ok { registry := { images := images2, tags := tags2 }, dirs := dirs2 }

/-! ## Sparse decompression (`images/store.rs`) -/

inductive ImageCompression where
  | zstd
  | gzip
deriving DecidableEq, Repr

/-- A file opened for writing, with an explicit cursor: `pos` is the seek
position, `len` the current file length, `content i` the byte at offset
`i` (unwritten offsets read as zero). -/
structure SparseFile where
  pos : Nat
  len : Nat
  content : Nat → Nat

/-- `File::create`: an empty file with the cursor at the start. -/
def SparseFile.create : SparseFile :=
  { pos := 0, len := 0, content := fun _ => 0 }

/-- `write_all`: store the bytes at the cursor, advance the cursor, and
extend the file length when writing past the end. -/
def SparseFile.write_all (f : SparseFile) (data : List Nat) : SparseFile :=
  { pos := f.pos + data.length,
    len := max f.len (f.pos + data.length),
    content := fun i =>
      if f.pos ≤ i ∧ i < f.pos + data.length then data.getD (i - f.pos) 0
      else f.content i }

/-- `seek(SeekFrom::Current(n))` for `n ≥ 0`: advance the cursor without
writing; seeking past the end leaves a hole that reads as zero. -/
def SparseFile.seek_forward (f : SparseFile) (n : Nat) : SparseFile :=
  { f with pos := f.pos + n }

/-- `set_len`: truncate or zero-extend the file to exactly `n` bytes. -/
def SparseFile.set_len (f : SparseFile) (n : Nat) : SparseFile :=
  { f with len := n, content := fun i => if i < n then f.content i else 0 }

/-- The readable bytes of the file: offsets `0 .. len`. -/
def SparseFile.bytes (f : SparseFile) : List Nat :=
  (List.range f.len).map f.content

/-- The decoder loop of `decompress_to_file`, one iteration per successful
`decoder.read` returning a non-empty chunk: an all-zero chunk advances the
cursor by a bare seek, any other chunk is written; the cumulative logical
length is accumulated either way. -/
def decompressChunks : SparseFile → Nat → List (List Nat) → SparseFile × Nat
  | f, total, [] => (f, total)
  | f, total, c :: rest =>
    let f2 := if c.all (fun b => b = 0) then f.seek_forward c.length else f.write_all c
    decompressChunks f2 (total + c.length) rest

/-- `decompress_to_file`, with the zstd or gzip decoder abstracted as the
list of chunks its successive `read` calls produce (their concatenation is
the decompressed byte string). Both compression branches run the identical
chunk loop; the file is finally truncated to the cumulative length. -/
def decompress_to_file (compression : ImageCompression) (chunks : List (List Nat)) :
    SparseFile :=
  match compression with
  | .zstd =>
    let out := decompressChunks SparseFile.create 0 chunks
    out.1.set_len out.2
  | .gzip =>
    let out := decompressChunks SparseFile.create 0 chunks
    out.1.set_len out.2

/-! ## CIDATA ISO9660 encoder (`cidata_iso9660.rs`) -/

def SECTOR_SIZE : Nat := 2048

def SYSTEM_AREA_SECTORS : Nat := 16

/-- An entry to place at the ISO root: a file name and its contents, both
as byte sequences. -/
structure CidataEntry where
  name : List Nat
  contents : List Nat
deriving DecidableEq, Repr

/-- A UTC timestamp as sampled by `Utc::now()`. -/
structure Ts where
  year : Nat
  month : Nat
  day : Nat
  hour : Nat
  minute : Nat
  second : Nat
deriving DecidableEq, Repr

def le16 (v : Nat) : List Nat := [v % 256, v / 256 % 256]

def be16 (v : Nat) : List Nat := [v / 256 % 256, v % 256]

def le32 (v : Nat) : List Nat :=
  [v % 256, v / 256 % 256, v / 65536 % 256, v / 16777216 % 256]

def be32 (v : Nat) : List Nat :=
  [v / 16777216 % 256, v / 65536 % 256, v / 256 % 256, v % 256]

/-- Overwrite the bytes `start .. start + src.length` of a buffer
(`copy_from_slice` into a sub-slice). -/
def blit (dst : Nat → Nat) (start : Nat) (src : List Nat) : Nat → Nat :=
  fun i =>
    if start ≤ i ∧ i < start + src.length then src.getD (i - start) 0 else dst i

/-- `write_ascii_padded` on the slice `start .. start + len`: fill with
ASCII spaces, then copy at most `len` bytes of the input over the front. -/
def write_ascii_padded (dst : Nat → Nat) (start len : Nat) (input : List Nat) :
    Nat → Nat :=
  blit (blit dst start (List.replicate len 32)) start (input.take len)

/-- `write_u16_both_endian`: the value stored little-endian then
big-endian, 4 bytes in all. -/
def write_u16_both_endian (dst : Nat → Nat) (start v : Nat) : Nat → Nat :=
  blit dst start (le16 v ++ be16 v)

/-- `write_u32_both_endian`: the value stored little-endian then
big-endian, 8 bytes in all. -/
def write_u32_both_endian (dst : Nat → Nat) (start v : Nat) : Nat → Nat :=
  blit dst start (le32 v ++ be32 v)

/-- Fixed-width decimal rendering (`{:02}`-style) as ASCII bytes. -/
def pad2 (v : Nat) : List Nat := [48 + v / 10 % 10, 48 + v % 10]

/-- Fixed-width decimal rendering (`{:04}`-style) as ASCII bytes. -/
def pad4 (v : Nat) : List Nat :=
  [48 + v / 1000 % 10, 48 + v / 100 % 10, 48 + v / 10 % 10, 48 + v % 10]

/-- `write_volume_datetime`: `YYYYMMDDhhmmss` then the literal `00` and a
terminating zero byte — 17 bytes. -/
def volumeDatetime (ts : Ts) : List Nat :=
  pad4 ts.year ++ pad2 ts.month ++ pad2 ts.day ++ pad2 ts.hour ++
    pad2 ts.minute ++ pad2 ts.second ++ [48, 48, 0]

/-- `to_iso_file_id`: upper-case letters, keep `[A-Z0-9_-]`, map anything
else to `_`, then append the `;1` version suffix. -/
def to_iso_file_id (name : List Nat) : List Nat :=
  name.map (fun b =>
    if 97 ≤ b ∧ b ≤ 122 then b - 32
    else if (65 ≤ b ∧ b ≤ 90) ∨ (48 ≤ b ∧ b ≤ 57) ∨ b = 95 ∨ b = 45 then b
    else 95) ++ [59, 49]

/-- `build_directory_record`: a 33-byte fixed header, the file identifier,
and one zero pad byte when the identifier length is even. -/
def build_directory_record (extent_lba data_len : Nat) (is_dir : Bool)
    (file_id : List Nat) (now : Ts) : List Nat :=
  let padding := if file_id.length % 2 = 0 then 1 else 0
  let record_len := 33 + file_id.length + padding
  [record_len % 256, 0] ++ le32 extent_lba ++ be32 extent_lba ++
    le32 data_len ++ be32 data_len ++
    [(now.year - 1900) % 256, now.month % 256, now.day % 256, now.hour % 256,
      now.minute % 256, now.second % 256, 0] ++
    [if is_dir then 2 else 0, 0, 0] ++ le16 1 ++ be16 1 ++
    [file_id.length % 256] ++ file_id ++ List.replicate padding 0

/-- The record-placement loop of `pack_records_to_sectors`: a record that
would cross a sector boundary is pushed to the next sector by zero-padding
the remainder of the current one. -/
def packGo : List Nat → List (List Nat) → List Nat
  | out, [] => out
  | out, r :: rest =>
    let used := out.length % SECTOR_SIZE
    let remaining := SECTOR_SIZE - used
    let out2 := if r.length > remaining then out ++ List.replicate remaining 0 else out
    packGo (out2 ++ r) rest

/-- `pack_records_to_sectors`: place the records, then zero-pad the result
to a whole number of sectors. -/
def pack_records_to_sectors (records : List (List Nat)) : List Nat :=
  let out := packGo [] records
  out ++ List.replicate ((SECTOR_SIZE - out.length % SECTOR_SIZE) % SECTOR_SIZE) 0

/-- `div_ceil` from `cidata_iso9660.rs`. -/
def div_ceil (value divisor : Nat) : Nat :=
  if value = 0 then 0 else 1 + (value - 1) / divisor

/-- `packed_len_for_records`: the packed length of the root directory once
`.` and `..` records (34 bytes each) are placed in front of the file
records. -/
def packed_len_for_records (_total_record_count : Nat)
    (records_without_dot_entries : List (List Nat)) (now : Ts) : Nat :=
  let dot_len := (build_directory_record 0 0 true [0] now).length
  let dotdot_len := (build_directory_record 0 0 true [1] now).length
  (pack_records_to_sectors
    (List.replicate dot_len 0 :: List.replicate dotdot_len 0 ::
      records_without_dot_entries)).length

/-- `estimated_root_directory_len`: packed length of the root directory
computed from provisional file records with extent 0. -/
def estimated_root_directory_len (entries : List CidataEntry) (now : Ts) : Nat :=
  packed_len_for_records (2 + entries.length)
    (entries.map (fun e =>
      build_directory_record 0 e.contents.length false (to_iso_file_id e.name) now))
    now

/-- `build_root_directory_bytes`: file records, a two-pass length for the
`.`/`..` records, and the final packing. -/
def build_root_directory_bytes (self_lba parent_lba : Nat)
    (entries : List CidataEntry) (entry_lbas : List Nat) (now : Ts) : List Nat :=
  let file_records := (entries.zip entry_lbas).map (fun p =>
    build_directory_record p.2 p.1.contents.length false (to_iso_file_id p.1.name) now)
  let provisional := packed_len_for_records (2 + file_records.length) file_records now
  let self_record := build_directory_record self_lba provisional true [0] now
  let parent_record := build_directory_record parent_lba provisional true [1] now
  pack_records_to_sectors (self_record :: parent_record :: file_records)

/-- The ASCII bytes of the fixed `BENTO` identifier fields. -/
def bentoBytes : List Nat := [66, 69, 78, 84, 79]

/-- `build_primary_volume_descriptor` as a byte function on the 2048-byte
sector, built by the same sequence of slice writes as the source. -/
def build_primary_volume_descriptor (volume_label : List Nat)
    (volume_space_size root_dir_lba root_dir_data_len
      path_table_le_lba path_table_be_lba : Nat) (now : Ts) : Nat → Nat :=
  let f0 : Nat → Nat := fun _ => 0
  let f1 := blit f0 0 [1]
  let f2 := blit f1 1 [67, 68, 48, 48, 49]
  let f3 := blit f2 6 [1]
  let f4 := write_ascii_padded f3 8 32 bentoBytes
  let f5 := write_ascii_padded f4 40 32 volume_label
  let f6 := write_u32_both_endian f5 80 volume_space_size
  let f7 := write_u16_both_endian f6 120 1
  let f8 := write_u16_both_endian f7 124 1
  let f9 := write_u16_both_endian f8 128 (SECTOR_SIZE % 65536)
  let f10 := write_u32_both_endian f9 132 10
  let f11 := blit f10 140 (le32 path_table_le_lba)
  let f12 := blit f11 148 (be32 path_table_be_lba)
  let f13 := blit f12 156 (build_directory_record root_dir_lba root_dir_data_len true [0] now)
  let f14 := write_ascii_padded f13 190 128 bentoBytes
  let f15 := write_ascii_padded f14 318 128 bentoBytes
  let f16 := write_ascii_padded f15 446 128 bentoBytes
  let f17 := write_ascii_padded f16 574 128 bentoBytes
  let f18 := blit f17 813 (volumeDatetime now)
  let f19 := blit f18 830 (volumeDatetime now)
  blit f19 881 [1]

/-- The Primary Volume Descriptor materialized as its 2048 bytes. -/
def pvdBytes (volume_label : List Nat)
    (volume_space_size root_dir_lba root_dir_data_len
      path_table_le_lba path_table_be_lba : Nat) (now : Ts) : List Nat :=
  List.ofFn (fun i : Fin 2048 =>
    build_primary_volume_descriptor volume_label volume_space_size root_dir_lba
      root_dir_data_len path_table_le_lba path_table_be_lba now i.val)

/-- `build_volume_terminator_descriptor`: type 255, `CD001`, version 1,
rest zero. -/
def build_volume_terminator_descriptor : List Nat :=
  [255, 67, 68, 48, 48, 49, 1] ++ List.replicate 2041 0

/-- `build_root_path_table`: the single root record in the requested
endianness, rest of the sector zero. -/
def build_root_path_table (little_endian : Bool) (root_dir_lba : Nat) : List Nat :=
  [1, 0] ++
    (if little_endian then le32 root_dir_lba ++ le16 1
     else be32 root_dir_lba ++ be16 1) ++
    [0, 0] ++ List.replicate 2038 0

/-- The LBA assignment loop of `write_cidata_iso`: each file starts at the
next free sector, advancing by its sector count. -/
def fileLbas (start : Nat) : List CidataEntry → List Nat
  | [] => []
  | e :: rest => start :: fileLbas (start + div_ceil e.contents.length SECTOR_SIZE) rest

/-- `write_at_lba` payload: the data followed by its zero padding up to the
next sector boundary. -/
def padToSector (data : List Nat) : List Nat :=
  data ++ List.replicate ((SECTOR_SIZE - data.length % SECTOR_SIZE) % SECTOR_SIZE) 0

/-- Apply a sequence of positioned writes (`seek` + `write_all`) to a file
modelled as a byte function; unwritten offsets read as zero. -/
def applyWrites : (Nat → Nat) → List (Nat × List Nat) → Nat → Nat
  | f, [] => f
  | f, (off, data) :: rest => applyWrites (blit f off data) rest

/-- The positioned writes `write_cidata_iso` performs, in program order:
zero the 16 system-area sectors, the PVD at sector 16, the set terminator
at 17, the L and M path tables at 18 and 19, the root directory at its
LBA, then each file at its assigned LBA (zero-padded to a sector). -/
def cidataWrites (volume_label : List Nat) (entries : List CidataEntry) (now : Ts) :
    List (Nat × List Nat) :=
  let root_dir_lba := SYSTEM_AREA_SECTORS + 4
  let root_dir_sectors := div_ceil (estimated_root_directory_len entries now) SECTOR_SIZE
  let first_file_lba := root_dir_lba + root_dir_sectors
  let lbas := fileLbas first_file_lba entries
  let root_dir_bytes := build_root_directory_bytes root_dir_lba root_dir_lba entries lbas now
  let volume_space_size :=
    first_file_lba + (entries.map (fun e => div_ceil e.contents.length SECTOR_SIZE)).sum
  ((List.range SYSTEM_AREA_SECTORS).map
      (fun k => (k * SECTOR_SIZE, List.replicate SECTOR_SIZE 0))) ++
    [(SYSTEM_AREA_SECTORS * SECTOR_SIZE,
        pvdBytes volume_label volume_space_size root_dir_lba root_dir_bytes.length
          (SYSTEM_AREA_SECTORS + 2) (SYSTEM_AREA_SECTORS + 3) now),
      ((SYSTEM_AREA_SECTORS + 1) * SECTOR_SIZE, build_volume_terminator_descriptor),
      ((SYSTEM_AREA_SECTORS + 2) * SECTOR_SIZE, build_root_path_table true root_dir_lba),
      ((SYSTEM_AREA_SECTORS + 3) * SECTOR_SIZE, build_root_path_table false root_dir_lba),
      (root_dir_lba * SECTOR_SIZE, padToSector root_dir_bytes)] ++
    (entries.zip lbas).map (fun p => (p.2 * SECTOR_SIZE, padToSector p.1.contents))

/-- `write_cidata_iso`: the produced image as a byte function. -/
def write_cidata_iso (volume_label : List Nat) (entries : List CidataEntry)
    (now : Ts) : Nat → Nat :=
  applyWrites (fun _ => 0) (cidataWrites volume_label entries now)

/-- The 2048 bytes of the sector at the given LBA of an image. -/
def sectorBytes (iso : Nat → Nat) (lba : Nat) : List Nat :=
  (List.range SECTOR_SIZE).map (fun i => iso (lba * SECTOR_SIZE + i))

/-! ## Theorems -/

lemma stripTag_eq_some_iff (p : List Char) :
    ∀ s r, stripTag p s = some r ↔ s = p ++ r := by
  induction p with
  | nil =>
    intro s r
    simp [stripTag]
  | cons q qs ih =>
    intro s r
    cases s with
    | nil => simp [stripTag]
    | cons c cs =>
      by_cases hc : c = q
      · subst hc
        simp [stripTag, ih]
      · simp [stripTag, hc, Ne.symm hc]

lemma stripTag_eq_none (p s : List Char) (h : ∀ r, s ≠ p ++ r) :
    stripTag p s = none := by
  cases hst : stripTag p s with
  | none => rfl
  | some r => exact absurd ((stripTag_eq_some_iff p s r).mp hst) (h r)

/-- C7: `image_id_from_digest` strips exactly one leading `sha256:` tag
when present and returns the digest unchanged otherwise, and it is
idempotent on valid manifest digests. -/
theorem image_id_from_digest_spec :
    (∀ h : List Char, image_id_from_digest (sha256Tag ++ h) = h) ∧
    (∀ s : List Char, (∀ h, s ≠ sha256Tag ++ h) → image_id_from_digest s = s) ∧
    (∀ s : List Char, ValidManifestDigest s →
      image_id_from_digest (image_id_from_digest s) = image_id_from_digest s) := by
  have hstrip : ∀ h, image_id_from_digest (sha256Tag ++ h) = h := by
    intro h
    unfold image_id_from_digest stripSha256
    rw [(stripTag_eq_some_iff sha256Tag (sha256Tag ++ h) h).mpr rfl]
  have hnone : ∀ s, (∀ h, s ≠ sha256Tag ++ h) → image_id_from_digest s = s := by
    intro s hs
    unfold image_id_from_digest stripSha256
    rw [stripTag_eq_none sha256Tag s hs]
  refine ⟨hstrip, hnone, ?_⟩
  rintro s ⟨h, rfl, hne, hhex⟩
  rw [hstrip h]
  apply hnone
  intro r hr
  have hmem : 's' ∈ h := by
    rw [hr]
    simp [sha256Tag]
  have := hhex 's' hmem
  simp [isHexDigit] at this

/-- C7 witness: concrete digests. -/
theorem image_id_from_digest_spec_witness :
    image_id_from_digest (sha256Tag ++ ['a', 'b']) = ['a', 'b'] ∧
    image_id_from_digest ['a', 'b'] = ['a', 'b'] ∧
    image_id_from_digest (image_id_from_digest (sha256Tag ++ ['a', 'b'])) =
      image_id_from_digest (sha256Tag ++ ['a', 'b']) := by
  refine ⟨image_id_from_digest_spec.1 ['a', 'b'], ?_, ?_⟩
  · refine image_id_from_digest_spec.2.1 ['a', 'b'] ?_
    intro h hc
    have hlen := congrArg List.length hc
    simp [sha256Tag] at hlen
  · exact image_id_from_digest_spec.2.2 (sha256Tag ++ ['a', 'b'])
      ⟨['a', 'b'], rfl, by decide, by decide⟩

/-- C8: a disk entry without a `role` field resolves to the root role: it
is eligible to be returned by `root_disk()` as the root disk, and two
role-less entries make `root_disk()` fail with `MultipleRootDisks` of
count 2. -/
theorem roleless_disk_is_root :
    (∀ d : DiskConfig, d.role = none → diskRoleOf d = .root) ∧
    (∀ (resolve : List Char → List Char) (dflt : List Char) (b : Bool)
        (d : DiskConfig), d.role = none →
      root_disk resolve [d] dflt b = .ok (some (resolve_config_disk resolve d))) ∧
    (∀ (resolve : List Char → List Char) (dflt : List Char) (b : Bool)
        (d1 d2 : DiskConfig), d1.role = none → d2.role = none →
      root_disk resolve [d1, d2] dflt b = .error (.multipleRootDisks 2)) := by
  refine ⟨fun d hd => by simp [diskRoleOf, hd], ?_, ?_⟩
  · intro resolve dflt b d hd
    simp [root_disk, partition_disks, rootEntries, dataEntries, diskRoleOf, hd]
  · intro resolve dflt b d1 d2 h1 h2
    simp [root_disk, partition_disks, rootEntries, dataEntries, diskRoleOf, h1, h2]

/-- C8 witness: a concrete role-less entry. -/
theorem roleless_disk_is_root_witness :
    diskRoleOf { path := ['a'], role := none, read_only := none } = .root ∧
    root_disk id [{ path := ['a'], role := none, read_only := none }] ['r'] false =
      .ok (some { path := ['a'], read_only := false }) ∧
    root_disk id
      [{ path := ['a'], role := none, read_only := none },
        { path := ['b'], role := none, read_only := none }] ['r'] false =
      .error (.multipleRootDisks 2) :=
  ⟨roleless_disk_is_root.1 _ rfl,
    roleless_disk_is_root.2.1 id ['r'] false _ rfl,
    roleless_disk_is_root.2.2 id ['r'] false _ _ rfl rfl⟩

/-- C1 counterexample: an instance whose only configured disk is a data
disk, with `rootfs.img` present in the instance directory. The claim
requires the `rootfs.img` fallback; the code returns no root disk. -/
theorem root_disk_fallback_counterexample :
    root_disk id [{ path := ['d'], role := some .data, read_only := none }]
        ['r'] true ≠
      .ok (some { path := ['r'], read_only := false }) := by
  intro hcontra
  have h0 : root_disk id [{ path := ['d'], role := some .data, read_only := none }]
      ['r'] true = .ok none := by rfl
  rw [h0] at hcontra
  exact Option.noConfusion (Except.ok.inj hcontra)

/-- C1 (amended): `root_disk()` yields the first root-resolving entry when
exactly one exists and fails with `MultipleRootDisks` when several do;
with no configured disks at all it falls back to `rootfs.img` (read-write)
when that file exists and to nothing otherwise; with a non-empty disk list
containing no root-resolving entry it yields nothing, regardless of
whether `rootfs.img` exists. -/
theorem root_disk_resolution (resolve : List Char → List Char)
    (disks : List DiskConfig) (dflt : List Char) (b : Bool) :
    ((rootEntries disks).length > 1 →
      root_disk resolve disks dflt b =
        .error (.multipleRootDisks (rootEntries disks).length)) ∧
    (∀ r, rootEntries disks = [r] →
      root_disk resolve disks dflt b = .ok (some (resolve_config_disk resolve r))) ∧
    (rootEntries disks = [] → disks = [] →
      root_disk resolve disks dflt b =
        .ok (if b then some { path := dflt, read_only := false } else none)) ∧
    (rootEntries disks = [] → disks ≠ [] →
      root_disk resolve disks dflt b = .ok none) := by
  refine ⟨?_, ?_, ?_, ?_⟩
  · intro hlen
    simp [root_disk, partition_disks, hlen]
  · intro r hr
    simp [root_disk, partition_disks, hr]
  · intro hr hd
    subst hd
    simp [root_disk, partition_disks, hr]
    cases b <;> simp
  · intro hr hd
    simp [root_disk, partition_disks, hr, hd]

/-- C1 witness: all four branches at concrete instances. -/
theorem root_disk_resolution_witness :
    root_disk id
      [{ path := ['a'], role := some .root, read_only := none },
        { path := ['b'], role := some .root, read_only := none }] ['r'] true =
      .error (.multipleRootDisks 2) ∧
    root_disk id
      [{ path := ['a'], role := some .root, read_only := some true }] ['r'] true =
      .ok (some { path := ['a'], read_only := true }) ∧
    root_disk id [] ['r'] true = .ok (some { path := ['r'], read_only := false }) ∧
    root_disk id [{ path := ['d'], role := some .data, read_only := none }] ['r'] true =
      .ok none := by
  refine ⟨?_, ?_, ?_, ?_⟩
  · exact (root_disk_resolution id
      [{ path := ['a'], role := some .root, read_only := none },
        { path := ['b'], role := some .root, read_only := none }] ['r'] true).1
      (by decide)
  · exact (root_disk_resolution id
      [{ path := ['a'], role := some .root, read_only := some true }] ['r'] true).2.1
      { path := ['a'], role := some .root, read_only := some true } (by decide)
  · exact (root_disk_resolution id [] ['r'] true).2.2.1 (by decide) rfl
  · exact (root_disk_resolution id
      [{ path := ['d'], role := some .data, read_only := none }] ['r'] true).2.2.2
      (by decide) (by decide)

/-- C10: `read_pid_file` answers `Ok(None)` only for a missing file or an
`ESRCH` probe (removing the stale file in the latter case); unparsable or
zero pids are `InvalidData` errors, and a `Success` or `EPERM` probe yields
`Ok(Some(pid))` with the file left in place. -/
theorem read_pid_file_spec :
    (∀ probe, read_pid_file .missing probe = (.ok none, .missing)) ∧
    (∀ raw probe, parse_i32 (strTrim raw) = none →
      read_pid_file (.present raw) probe = (.error .invalidData, .present raw)) ∧
    (∀ raw probe, parse_i32 (strTrim raw) = some 0 →
      read_pid_file (.present raw) probe = (.error .invalidData, .present raw)) ∧
    (∀ raw probe pid, parse_i32 (strTrim raw) = some pid → pid ≠ 0 →
      (probe pid = .success ∨ probe pid = .eperm) →
      read_pid_file (.present raw) probe = (.ok (some pid), .present raw)) ∧
    (∀ raw probe pid, parse_i32 (strTrim raw) = some pid → pid ≠ 0 →
      probe pid = .esrch →
      read_pid_file (.present raw) probe = (.ok none, .missing)) ∧
    (∀ file probe, (read_pid_file file probe).1 = .ok none →
      file = .missing ∨
        ∃ raw pid, file = .present raw ∧ parse_i32 (strTrim raw) = some pid ∧
          probe pid = .esrch ∧ (read_pid_file file probe).2 = .missing) := by
  refine ⟨fun _ => rfl, ?_, ?_, ?_, ?_, ?_⟩
  · intro raw probe hparse
    simp [read_pid_file, hparse]
  · intro raw probe hparse
    simp [read_pid_file, hparse]
  · intro raw probe pid hparse hpid hprobe
    rcases hprobe with h | h <;> simp [read_pid_file, hparse, hpid, h]
  · intro raw probe pid hparse hpid hprobe
    simp [read_pid_file, hparse, hpid, hprobe]
  · intro file probe hok
    cases file with
    | missing => exact Or.inl rfl
    | readError code => simp [read_pid_file] at hok
    | present raw =>
      refine Or.inr ?_
      cases hparse : parse_i32 (strTrim raw) with
      | none => simp [read_pid_file, hparse] at hok
      | some pid =>
        by_cases hpid : pid = 0
        · simp [read_pid_file, hparse, hpid] at hok
        · cases hprobe : probe pid with
          | success => simp [read_pid_file, hparse, hpid, hprobe] at hok
          | esrch =>
            exact ⟨raw, pid, rfl, hparse, hprobe, by
              simp [read_pid_file, hparse, hpid, hprobe]⟩
          | eperm => simp [read_pid_file, hparse, hpid, hprobe] at hok
          | otherErr code => simp [read_pid_file, hparse, hpid, hprobe] at hok

/-- C10 witness: a pid file containing ` 42\n` probed in each mode, plus a
non-numeric and a zero pid file. -/
theorem read_pid_file_spec_witness :
    read_pid_file (.present [' ', '4', '2', '\n']) (fun _ => .success) =
      (.ok (some 42), .present [' ', '4', '2', '\n']) ∧
    read_pid_file (.present [' ', '4', '2', '\n']) (fun _ => .esrch) =
      (.ok none, .missing) ∧
    read_pid_file (.present ['x']) (fun _ => .success) =
      (.error .invalidData, .present ['x']) ∧
    read_pid_file (.present ['0']) (fun _ => .success) =
      (.error .invalidData, .present ['0']) ∧
    read_pid_file .missing (fun _ => .success) = (.ok none, .missing) := by
  refine ⟨?_, ?_, ?_, ?_, ?_⟩
  · exact read_pid_file_spec.2.2.2.1 [' ', '4', '2', '\n'] (fun _ => .success) 42
      (by decide) (by decide) (Or.inl rfl)
  · exact read_pid_file_spec.2.2.2.2.1 [' ', '4', '2', '\n'] (fun _ => .esrch) 42
      (by decide) (by decide) rfl
  · exact read_pid_file_spec.2.1 ['x'] (fun _ => .success) (by decide)
  · exact read_pid_file_spec.2.2.1 ['0'] (fun _ => .success) (by decide)
  · exact read_pid_file_spec.1 (fun _ => .success)

/-- Structural invariant of reachable hub states: subscriber ids are
distinct and below the id counter. -/
lemma SerialHub.reachable_wf {s : SerialHub} (h : s.Reachable) :
    s.subscribers.Nodup ∧ ∀ id ∈ s.subscribers, id < s.next_id := by
  induction h with
  | new => simp [SerialHub.new]
  | @attach s s' a id _ hstep ih =>
    by_cases hcond : a = .interactive ∧ s.interactive_owner.isSome
    · simp [SerialHub.attach, hcond] at hstep
    · simp only [SerialHub.attach, if_neg hcond] at hstep
      obtain ⟨-, rfl⟩ := Prod.mk.injEq .. ▸ (Except.ok.inj hstep)
      constructor
      · refine List.Nodup.append ih.1 (List.nodup_singleton _) ?_
        intro x hx hx'
        simp at hx'
        subst hx'
        exact absurd (ih.2 _ hx) (lt_irrefl _)
      · intro x hx
        rcases List.mem_append.mp hx with hmem | hmem
        · exact Nat.lt_succ_of_lt (ih.2 x hmem)
        · simp at hmem
          simp [hmem]
  | @detach s id _ ih =>
    refine ⟨ih.1.erase id, ?_⟩
    intro x hx
    exact ih.2 x (List.mem_of_mem_erase hx)

/-- In a duplicate-free list at most one element satisfies an equality
test against a fixed value. -/
lemma length_filter_eq_le_one (l : List Nat) (k : Nat) (h : l.Nodup) :
    (l.filter (fun id => k = id)).length ≤ 1 := by
  induction l with
  | nil => simp
  | cons a t ih =>
    rcases List.nodup_cons.mp h with ⟨hna, hnd⟩
    by_cases hka : k = a
    · subst hka
      have hnil : t.filter (fun id => k = id) = [] := by
        refine List.filter_eq_nil_iff.mpr ?_
        intro x hx
        simp only [decide_eq_true_eq]
        intro hkx
        exact hna (hkx ▸ hx)
      simp [List.filter_cons, hnil]
    · simpa [List.filter_cons, hka] using ih hnd

/-- C4: with an interactive owner registered, a second interactive attach
fails; a watch attach succeeds in every state; and in every reachable hub
state at most one registered subscriber holds the interactive role. -/
theorem serial_hub_interactive_exclusive :
    (∀ s : SerialHub, s.interactive_owner.isSome →
      s.attach .interactive = .error ()) ∧
    (∀ s : SerialHub, ∃ id s', s.attach .watch = .ok (id, s')) ∧
    (∀ s : SerialHub, s.Reachable →
      (s.subscribers.filter (fun id => s.can_write_input id)).length ≤ 1) := by
  refine ⟨?_, ?_, ?_⟩
  · intro s hs
    simp [SerialHub.attach, hs]
  · intro s
    refine ⟨s.next_id,
      { next_id := s.next_id + 1, interactive_owner := s.interactive_owner,
        subscribers := s.subscribers ++ [s.next_id] }, ?_⟩
    simp [SerialHub.attach]
  · intro s hs
    have hwf := SerialHub.reachable_wf hs
    cases howner : s.interactive_owner with
    | none => simp [SerialHub.can_write_input, howner]
    | some k =>
      have : (s.subscribers.filter (fun id => s.can_write_input id)) =
          (s.subscribers.filter (fun id => k = id)) := by
        apply List.filter_congr
        intro x _
        simp [SerialHub.can_write_input, howner]
      rw [this]
      exact length_filter_eq_le_one s.subscribers k hwf.1

/-- C4 witness: the hub with one interactive subscriber refuses a second
interactive attach, accepts a watch attach, and satisfies the
single-writer bound. -/
theorem serial_hub_interactive_exclusive_witness :
    (⟨2, some 1, [1]⟩ : SerialHub).attach .interactive = .error () ∧
    (∃ id s', (⟨2, some 1, [1]⟩ : SerialHub).attach .watch = .ok (id, s')) ∧
    ((SerialHub.new.subscribers.filter
        (fun id => SerialHub.new.can_write_input id)).length ≤ 1) := by
  refine ⟨?_, ?_, ?_⟩
  · exact serial_hub_interactive_exclusive.1 _ rfl
  · exact serial_hub_interactive_exclusive.2.1 _
  · exact serial_hub_interactive_exclusive.2.2 SerialHub.new .new

/-- Reading a newline-terminated line that keeps the buffer within the
16 KiB cap accumulates exactly the bytes before the newline. -/
lemma readLineGo_ok (L : List Nat) :
    ∀ (buf rest : List Nat), 10 ∉ L →
      buf.length + L.length ≤ MAX_CONTROL_LINE_BYTES →
      readLineGo buf (L ++ 10 :: rest) = .ok (buf ++ L, rest) := by
  induction L with
  | nil =>
    intro buf rest _ _
    simp [readLineGo]
  | cons b L' ih =>
    intro buf rest hnl hlen
    have hb : b ≠ 10 := fun hc => hnl (hc ▸ List.mem_cons_self b L')
    have hfit : ¬ (buf ++ [b]).length > MAX_CONTROL_LINE_BYTES := by
      simp only [List.length_append, List.length_singleton]
      simp only [List.length_cons] at hlen
      omega
    have hrec := ih (buf ++ [b]) rest (fun hc => hnl (List.mem_cons_of_mem b hc))
      (by simp only [List.length_append, List.length_singleton]
          simp only [List.length_cons] at hlen
          omega)
    simp only [List.cons_append, readLineGo, if_neg hb, if_neg hfit,
      List.append_eq, hrec, List.append_assoc, List.singleton_append,
      List.nil_append]

/-- A stream whose pending line overflows the 16 KiB cap makes the line
reader fail with `InvalidData`, whatever follows. -/
lemma readLineGo_overflow (L : List Nat) :
    ∀ (buf s : List Nat), 10 ∉ L →
      buf.length ≤ MAX_CONTROL_LINE_BYTES →
      buf.length + L.length > MAX_CONTROL_LINE_BYTES →
      readLineGo buf (L ++ s) = .error .invalidData := by
  induction L with
  | nil =>
    intro buf s _ hle hgt
    simp at hgt
    omega
  | cons b L' ih =>
    intro buf s hnl hle hgt
    have hb : b ≠ 10 := fun hc => hnl (hc ▸ List.mem_cons_self b L')
    by_cases hover : (buf ++ [b]).length > MAX_CONTROL_LINE_BYTES
    · simp only [List.cons_append, readLineGo, if_neg hb, if_pos hover]
    · have hrec := ih (buf ++ [b]) s (fun hc => hnl (List.mem_cons_of_mem b hc))
        (by omega)
        (by simp only [List.length_append, List.length_singleton]
            simp only [List.length_cons] at hgt
            omega)
      simp only [List.cons_append, readLineGo, if_neg hb, if_neg hover,
        List.append_eq, hrec]

/-- C2: a control line longer than 16 KiB makes `read_json_line` fail with
`InvalidData` — so the message read of the connection handler fails and no
message is produced — while a line of at most 16 KiB of valid UTF-8 is
read back exactly. -/
theorem control_line_limit (L rest : List Nat) (hnl : 10 ∉ L) :
    (L.length > MAX_CONTROL_LINE_BYTES →
      read_json_line (L ++ 10 :: rest) = .error .invalidData ∧
      ∀ {μ : Type} (par : List Nat → Option μ),
        read_from par (L ++ 10 :: rest) = .error .invalidData) ∧
    (L.length ≤ MAX_CONTROL_LINE_BYTES → validUtf8 L = true →
      read_json_line (L ++ 10 :: rest) = .ok (L, rest)) := by
  constructor
  · intro hlen
    have herr : readLineGo [] (L ++ 10 :: rest) = .error .invalidData := by
      have := readLineGo_overflow L [] (10 :: rest) hnl (by simp [MAX_CONTROL_LINE_BYTES])
        (by simpa using hlen)
      exact this
    constructor
    · simp [read_json_line, herr]
    · intro μ par
      simp [read_from, read_json_line, herr]
  · intro hlen hutf
    have hok : readLineGo [] (L ++ 10 :: rest) = .ok (L, rest) := by
      simpa using readLineGo_ok L [] rest hnl (by simpa using hlen)
    simp [read_json_line, hok, hutf]

/-- C2 witness: a 16385-byte line fails, a short line is read back. -/
theorem control_line_limit_witness :
    read_json_line (List.replicate 16385 65 ++ 10 :: []) = .error .invalidData ∧
    read_json_line ([65] ++ 10 :: []) = .ok ([65], []) := by
  have hmem : (10 : Nat) ∉ List.replicate 16385 65 := by
    intro hc
    have h65 := List.eq_of_mem_replicate hc
    omega
  have hbig : (List.replicate (16385 : Nat) 65).length > MAX_CONTROL_LINE_BYTES := by
    rw [List.length_replicate]
    norm_num [MAX_CONTROL_LINE_BYTES]
  constructor
  · exact ((control_line_limit (List.replicate 16385 65) [] hmem).1 hbig).1
  · exact (control_line_limit [65] [] (by decide)).2
      (by norm_num [MAX_CONTROL_LINE_BYTES]) (by decide)

/-- C9: writing a message with `write_to` (serialization plus newline) and
reading the stream back with `read_from` returns the original message,
provided the serialization is newline-free, at most 16 KiB, valid UTF-8
and non-empty, and the parser inverts the serializer on it (the
`serde_json` contract for `ControlRequest` and `ControlResponse`). -/
theorem control_message_round_trip {μ : Type} (ser : μ → List Nat)
    (par : List Nat → Option μ) (m : μ) (rest : List Nat)
    (hinv : par (ser m) = some m) (hnl : 10 ∉ ser m)
    (hlen : (ser m).length ≤ MAX_CONTROL_LINE_BYTES)
    (hutf : validUtf8 (ser m) = true) (hne : ser m ≠ []) :
    read_from par (write_json_line ser m ++ rest) = .ok (m, rest) := by
  have hstream : write_json_line ser m ++ rest = ser m ++ 10 :: rest := by
    simp [write_json_line]
  rw [hstream]
  have hline := (control_line_limit (ser m) rest hnl).2 hlen hutf
  simp [read_from, hline, hne, hinv]

/-- C9 witness: a concrete one-byte message codec. -/
theorem control_message_round_trip_witness :
    read_from (fun l => if l = [49] then some 1 else none)
        (write_json_line (fun _ : Nat => [49]) 1 ++ []) = .ok (1, []) :=
  control_message_round_trip (fun _ : Nat => [49])
    (fun l => if l = [49] then some 1 else none) 1 []
    (by decide) (by decide) (by norm_num [MAX_CONTROL_LINE_BYTES])
    (by decide) (by decide)

/-- Erasing from a duplicate-free list of names removes every occurrence
of the name. -/
lemma nodup_erase_eq_filter (l : List (List Char)) (a : List Char)
    (h : l.Nodup) : l.erase a = l.filter (fun d => d ≠ a) := by
  rw [h.erase_eq_filter a]
  apply List.filter_congr
  intro x _
  by_cases hx : x = a
  · simp [hx, bne]
  · simp [hx, bne, beq_false_of_ne hx]

/-- `removeFirstImage` misses exactly when no record carries the id. -/
lemma removeFirstImage_eq_none (l : List ImageRecord) (iid : List Char) :
    removeFirstImage l iid = none ↔ ∀ img ∈ l, img.id ≠ iid := by
  induction l with
  | nil => simp [removeFirstImage]
  | cons a t ih =>
    by_cases ha : a.id = iid
    · simp [removeFirstImage, ha]
    · cases ht : removeFirstImage t iid with
      | none => simp_all [removeFirstImage, ha, ht]
      | some p => simp_all [removeFirstImage, ha, ht]

/-- With duplicate-free record ids, a successful `removeFirstImage` finds
the record with the id and leaves exactly the records of other ids. -/
lemma removeFirstImage_eq_some (l : List ImageRecord) (iid : List Char)
    (img : ImageRecord) (l2 : List ImageRecord)
    (hnd : (l.map (fun i => i.id)).Nodup)
    (h : removeFirstImage l iid = some (img, l2)) :
    img.id = iid ∧ l2 = l.filter (fun i => i.id ≠ iid) := by
  induction l generalizing l2 with
  | nil => simp [removeFirstImage] at h
  | cons a t ih =>
    rw [List.map_cons] at hnd
    rcases List.nodup_cons.mp hnd with ⟨hb, ht⟩
    by_cases ha : a.id = iid
    · simp only [removeFirstImage, if_pos ha] at h
      have hpair := Option.some.inj h
      injection hpair with h1 h2
      subst h1
      subst h2
      refine ⟨ha, ?_⟩
      have hfil : t.filter (fun i => i.id ≠ iid) = t := by
        refine List.filter_eq_self.mpr ?_
        intro x hx
        simp only [decide_eq_true_eq]
        intro hxid
        exact hb (ha ▸ hxid ▸ List.mem_map_of_mem (fun i => i.id) hx)
      rw [List.filter_cons_of_neg, hfil]
      simp [ha]
    · simp only [removeFirstImage, if_neg ha] at h
      cases hrec : removeFirstImage t iid with
      | none =>
        rw [hrec] at h
        exact absurd h (by simp)
      | some p =>
        obtain ⟨found, rest2⟩ := p
        rw [hrec] at h
        have hpair := Option.some.inj h
        injection hpair with h1 h2
        subst h1
        subst h2
        obtain ⟨hfid, hrest⟩ := ih rest2 ht hrec
        refine ⟨hfid, ?_⟩
        rw [List.filter_cons_of_pos, ← hrest]
        simp [ha]

/-- C3: removing a tag whose image id is still referenced by another tag
drops only the tag entry, keeping every image record and on-disk
directory; removing the last tag referencing an image also removes the
image record and deletes the image's directory. -/
theorem remove_image_spec (st : ImageStore) (t iid : List Char)
    (tags2 : List ImageTag)
    (htag : removeFirstTag st.registry.tags t = some (iid, tags2))
    (hids : (st.registry.images.map (fun i => i.id)).Nodup)
    (hdirs : st.dirs.Nodup)
    (hdirimg : ∀ d ∈ st.dirs, ∃ img ∈ st.registry.images, img.id = d) :
    (tags2.any (fun tg => tg.image_id = iid) = true →
      remove_image st t =
        .ok ⟨⟨st.registry.images, tags2⟩, st.dirs⟩) ∧
    (tags2.any (fun tg => tg.image_id = iid) = false →
      remove_image st t =
        .ok ⟨⟨st.registry.images.filter (fun i => i.id ≠ iid), tags2⟩,
          st.dirs.filter (fun d => d ≠ iid)⟩) := by
  constructor
  · intro hany
    simp [remove_image, htag, hany]
  · intro hany
    cases himg : removeFirstImage st.registry.images iid with
    | none =>
      have hnone := (removeFirstImage_eq_none st.registry.images iid).mp himg
      have himages : st.registry.images.filter (fun i => i.id ≠ iid) =
          st.registry.images := by
        refine List.filter_eq_self.mpr ?_
        intro x hx
        simp only [decide_eq_true_eq]
        exact hnone x hx
      have hdirsf : st.dirs.filter (fun d => d ≠ iid) = st.dirs := by
        refine List.filter_eq_self.mpr ?_
        intro d hd
        simp only [decide_eq_true_eq]
        intro hdi
        obtain ⟨img, hmem, hid⟩ := hdirimg d hd
        exact hnone img hmem (hid.trans hdi)
      rw [himages, hdirsf]
      simp [remove_image, htag, hany, himg]
    | some p =>
      obtain ⟨img, images2⟩ := p
      obtain ⟨hid, himages2⟩ := removeFirstImage_eq_some st.registry.images iid
        img images2 hids himg
      have hdirs2 : (if img.id ∈ st.dirs then st.dirs.erase img.id else st.dirs) =
          st.dirs.filter (fun d => d ≠ iid) := by
        rw [hid]
        by_cases hmem : iid ∈ st.dirs
        · rw [if_pos hmem]
          exact nodup_erase_eq_filter st.dirs iid hdirs
        · rw [if_neg hmem]
          refine (List.filter_eq_self.mpr ?_).symm
          intro d hd
          simp only [decide_eq_true_eq]
          intro hdi
          exact hmem (hdi ▸ hd)
      rw [← himages2, ← hdirs2]
      simp [remove_image, htag, hany, himg]

/-- C3 witness: one image with two tags — removing the first tag keeps the
record and directory; removing the remaining tag deletes both. -/
theorem remove_image_spec_witness :
    remove_image ⟨⟨[⟨['i']⟩], [⟨['a'], ['i']⟩, ⟨['b'], ['i']⟩]⟩, [['i']]⟩ ['a'] =
      .ok ⟨⟨[⟨['i']⟩], [⟨['b'], ['i']⟩]⟩, [['i']]⟩ ∧
    remove_image ⟨⟨[⟨['i']⟩], [⟨['b'], ['i']⟩]⟩, [['i']]⟩ ['b'] =
      .ok ⟨⟨[], []⟩, []⟩ := by
  constructor
  · exact (remove_image_spec ⟨⟨[⟨['i']⟩], [⟨['a'], ['i']⟩, ⟨['b'], ['i']⟩]⟩, [['i']]⟩
      ['a'] ['i'] [⟨['b'], ['i']⟩] (by decide) (by decide) (by decide)
      (by decide)).1 (by decide)
  · have h := (remove_image_spec ⟨⟨[⟨['i']⟩], [⟨['b'], ['i']⟩]⟩, [['i']]⟩
      ['b'] ['i'] [] (by decide) (by decide) (by decide) (by decide)).2 (by decide)
    simpa using h

/-- Invariant of the decoder loop: the cursor tracks the cumulative
logical length, the file length never exceeds it, offsets below it hold
the decompressed bytes so far and offsets beyond it are still zero. -/
lemma decompressChunks_spec (chunks : List (List Nat)) :
    ∀ (f : SparseFile) (total : Nat) (B : List Nat),
      f.pos = total → total = B.length → f.len ≤ total →
      (∀ i, i < total → f.content i = B.getD i 0) →
      (∀ i, total ≤ i → f.content i = 0) →
      (decompressChunks f total chunks).1.pos = total + chunks.flatten.length ∧
      (decompressChunks f total chunks).2 = total + chunks.flatten.length ∧
      (decompressChunks f total chunks).1.len ≤ total + chunks.flatten.length ∧
      (∀ i, i < total + chunks.flatten.length →
        (decompressChunks f total chunks).1.content i =
          (B ++ chunks.flatten).getD i 0) ∧
      (∀ i, total + chunks.flatten.length ≤ i →
        (decompressChunks f total chunks).1.content i = 0) := by
  induction chunks with
  | nil =>
    intro f total B hpos htot hlen hlow hhigh
    refine ⟨by simpa [decompressChunks] using hpos, by simp [decompressChunks],
      by simpa [decompressChunks] using hlen, ?_, ?_⟩
    · intro i hi
      simp only [List.flatten_nil, Nat.add_zero] at hi
      simpa [decompressChunks, List.append_nil] using hlow i hi
    · intro i hi
      simp only [List.flatten_nil, Nat.add_zero] at hi
      simpa [decompressChunks] using hhigh i hi
  | cons c rest ih =>
    intro f total B hpos htot hlen hlow hhigh
    have hstep : decompressChunks f total (c :: rest) =
        decompressChunks
          (if c.all (fun b => b = 0) then f.seek_forward c.length else f.write_all c)
          (total + c.length) rest := rfl
    by_cases hz : c.all (fun b => b = 0) = true
    · have hzero : ∀ j, j < c.length → c.getD j 0 = 0 := by
        intro j hj
        have hmem : c.getD j 0 ∈ c := by
          rw [List.getD_eq_getElem c 0 hj]
          exact c.getElem_mem hj
        simpa using List.all_eq_true.mp hz _ hmem
      have hrec := ih (f.seek_forward c.length) (total + c.length) (B ++ c)
        (by simp [SparseFile.seek_forward, hpos])
        (by simp [htot])
        (by simp [SparseFile.seek_forward]; omega)
        (by
          intro i hi
          simp only [SparseFile.seek_forward]
          by_cases hit : i < total
          · rw [hlow i hit, List.getD_append B c 0 i (htot ▸ hit)]
          · have hge : total ≤ i := Nat.le_of_not_lt hit
            rw [hhigh i hge, List.getD_append_right B c 0 i (htot ▸ hge)]
            exact (hzero (i - B.length) (by omega)).symm)
        (by
          intro i hi
          simp only [SparseFile.seek_forward]
          exact hhigh i (by omega))
      rw [hstep, if_pos hz]
      simp only [List.flatten_cons, List.length_append, ← Nat.add_assoc,
        ← List.append_assoc]
      exact hrec
    · have hrec := ih (f.write_all c) (total + c.length) (B ++ c)
        (by simp [SparseFile.write_all, hpos])
        (by simp [htot])
        (by
          simp only [SparseFile.write_all, hpos]
          omega)
        (by
          intro i hi
          simp only [SparseFile.write_all, hpos]
          by_cases hit : i < total
          · rw [if_neg (by omega), hlow i hit,
              List.getD_append B c 0 i (htot ▸ hit)]
          · have hge : total ≤ i := Nat.le_of_not_lt hit
            rw [if_pos ⟨hge, hi⟩,
              List.getD_append_right B c 0 i (htot ▸ hge), htot]
        )
        (by
          intro i hi
          simp only [SparseFile.write_all, hpos]
          rw [if_neg (by omega)]
          exact hhigh i (by omega))
      rw [hstep, if_neg hz]
      simp only [List.flatten_cons, List.length_append, ← Nat.add_assoc,
        ← List.append_assoc]
      exact hrec

/-- C5: the sparse decompression loop reproduces the decoded byte string
exactly, for either compression kind. The zstd or gzip decoder (an
external library on both the compress and the decompress side) appears as
the list of chunks its successive reads yield; its concatenation is the
decompressed byte string `B = decode(compress(c, B))`, and the theorem
states that the written file's bytes are exactly that concatenation —
all-zero chunks skipped by seeks and the final truncation to the
cumulative logical length included. -/
theorem decompress_to_file_round_trip (c : ImageCompression)
    (chunks : List (List Nat)) :
    (decompress_to_file c chunks).bytes = chunks.flatten := by
  have hspec := decompressChunks_spec chunks SparseFile.create 0 []
    rfl rfl (Nat.le_refl 0) (by omega) (fun i _ => rfl)
  obtain ⟨hpos, htot, hlen, hlow, hhigh⟩ := hspec
  have hout : decompress_to_file c chunks =
      (decompressChunks SparseFile.create 0 chunks).1.set_len
        (decompressChunks SparseFile.create 0 chunks).2 := by
    cases c <;> rfl
  rw [hout]
  apply List.ext_getElem
  · simp [SparseFile.bytes, SparseFile.set_len, htot]
  · intro i h1 h2
    simp only [SparseFile.bytes, SparseFile.set_len, List.getElem_map,
      List.getElem_range, List.length_map, List.length_range] at h1 ⊢
    rw [if_pos (by omega)]
    have hflat : i < chunks.flatten.length := by omega
    rw [hlow i (by omega)]
    simp only [List.nil_append]
    exact List.getD_eq_getElem chunks.flatten 0 hflat

lemma blit_lt {f : Nat → Nat} {start : Nat} {src : List Nat} {i : Nat}
    (h : i < start) : blit f start src i = f i := by
  simp only [blit]
  rw [if_neg (by omega)]

lemma blit_ge {f : Nat → Nat} {start : Nat} {src : List Nat} {i : Nat}
    (h : start + src.length ≤ i) : blit f start src i = f i := by
  simp only [blit]
  rw [if_neg (by omega)]

lemma blit_hit {f : Nat → Nat} {start : Nat} {src : List Nat} {i : Nat}
    (h1 : start ≤ i) (h2 : i < start + src.length) :
    blit f start src i = src.getD (i - start) 0 := by
  simp only [blit]
  rw [if_pos ⟨h1, h2⟩]

lemma applyWrites_append (a b : List (Nat × List Nat)) (f : Nat → Nat) :
    applyWrites f (a ++ b) = applyWrites (applyWrites f a) b := by
  induction a generalizing f with
  | nil => rfl
  | cons w rest ih =>
    obtain ⟨off, data⟩ := w
    simp only [List.cons_append, applyWrites]
    exact ih _

/-- A point below every write offset is untouched by the writes. -/
lemma applyWrites_out (ws : List (Nat × List Nat)) (f : Nat → Nat) (p : Nat)
    (h : ∀ w ∈ ws, p < w.1) : applyWrites f ws p = f p := by
  induction ws generalizing f with
  | nil => rfl
  | cons w rest ih =>
    obtain ⟨off, data⟩ := w
    simp only [applyWrites]
    rw [ih _ (fun w hw => h w (List.mem_cons_of_mem _ hw))]
    exact blit_lt (h (off, data) (List.mem_cons_self ..))

/-- Every file LBA assigned by the allocation loop is at least the start
LBA. -/
lemma fileLbas_ge (entries : List CidataEntry) :
    ∀ (start l : Nat), l ∈ fileLbas start entries → start ≤ l := by
  induction entries with
  | nil =>
    intro start l h
    simp [fileLbas] at h
  | cons e rest ih =>
    intro start l h
    simp only [fileLbas, List.mem_cons] at h
    rcases h with rfl | h
    · exact Nat.le_refl _
    · exact Nat.le_trans (Nat.le_add_right _ _) (ih _ l h)

/-- The per-file writes of `write_cidata_iso` all land at or above the
first file LBA, so they leave lower offsets untouched. -/
lemma files_write_offsets {entries : List CidataEntry} {start p : Nat}
    (hp : p < start * SECTOR_SIZE) :
    ∀ w ∈ (entries.zip (fileLbas start entries)).map
        (fun p => (p.2 * SECTOR_SIZE, padToSector p.1.contents)), p < w.1 := by
  intro w hw
  rw [List.mem_map] at hw
  obtain ⟨pr, hpr, rfl⟩ := hw
  obtain ⟨e, lba⟩ := pr
  have hlba : start ≤ lba := fileLbas_ge entries start lba (List.of_mem_zip hpr).2
  exact Nat.lt_of_lt_of_le hp (Nat.mul_le_mul_right _ hlba)

/-- Evaluating the PVD write at an offset inside sector 16: the write hits,
and later writes (all at higher offsets) do not disturb it. -/
lemma blit_pvd_eval (label : List Nat) (vss rlba rdl ptle ptbe : Nat)
    (now : Ts) (g : Nat → Nat) (i : Nat) (hi : i < 2048) :
    blit g (SYSTEM_AREA_SECTORS * SECTOR_SIZE)
        (pvdBytes label vss rlba rdl ptle ptbe now) (16 * 2048 + i) =
      build_primary_volume_descriptor label vss rlba rdl ptle ptbe now i := by
  rw [blit_hit (show SYSTEM_AREA_SECTORS * SECTOR_SIZE ≤ 16 * 2048 + i by
      simp only [SYSTEM_AREA_SECTORS, SECTOR_SIZE]; omega)
    (show 16 * 2048 + i < SYSTEM_AREA_SECTORS * SECTOR_SIZE +
        (pvdBytes label vss rlba rdl ptle ptbe now).length by
      simp only [pvdBytes, List.length_ofFn, SYSTEM_AREA_SECTORS, SECTOR_SIZE]
      omega)]
  rw [show 16 * 2048 + i - SYSTEM_AREA_SECTORS * SECTOR_SIZE = i by
    simp only [SYSTEM_AREA_SECTORS, SECTOR_SIZE]; omega]
  simp only [pvdBytes]
  have hlen : i < (List.ofFn fun j : Fin 2048 =>
      build_primary_volume_descriptor label vss rlba rdl ptle ptbe now j.val).length := by
    simp only [List.length_ofFn]
    omega
  rw [List.getD_eq_getElem _ _ hlen, List.getElem_ofFn]

set_option maxHeartbeats 2000000 in
set_option maxRecDepth 4000 in
/-- Every byte of sector 16 of the produced image comes from the Primary
Volume Descriptor (the later writes all target sector 17 or beyond). -/
lemma write_cidata_iso_sector16 (label : List Nat) (entries : List CidataEntry)
    (now : Ts) (i : Nat) (hi : i < 2048) :
    ∃ vss rlba rdl ptle ptbe,
      write_cidata_iso label entries now (16 * 2048 + i) =
        build_primary_volume_descriptor label vss rlba rdl ptle ptbe now i := by
  refine ⟨SYSTEM_AREA_SECTORS + 4 +
      div_ceil (estimated_root_directory_len entries now) SECTOR_SIZE +
      (List.map (fun e => div_ceil e.contents.length SECTOR_SIZE) entries).sum,
    SYSTEM_AREA_SECTORS + 4,
    (build_root_directory_bytes (SYSTEM_AREA_SECTORS + 4) (SYSTEM_AREA_SECTORS + 4)
        entries
        (fileLbas
          (SYSTEM_AREA_SECTORS + 4 +
            div_ceil (estimated_root_directory_len entries now) SECTOR_SIZE)
          entries)
        now).length,
    SYSTEM_AREA_SECTORS + 2, SYSTEM_AREA_SECTORS + 3, ?_⟩
  simp only [write_cidata_iso, cidataWrites, applyWrites, List.append_eq,
    List.nil_append]
  rw [applyWrites_out _ _ _ (files_write_offsets (show 16 * 2048 + i <
      (SYSTEM_AREA_SECTORS + 4 +
        div_ceil (estimated_root_directory_len entries now) SECTOR_SIZE) *
        SECTOR_SIZE by
    simp only [SYSTEM_AREA_SECTORS, SECTOR_SIZE]; omega))]
  rw [blit_lt (show 16 * 2048 + i < (SYSTEM_AREA_SECTORS + 4) * SECTOR_SIZE by
    simp only [SYSTEM_AREA_SECTORS, SECTOR_SIZE]; omega)]
  rw [blit_lt (show 16 * 2048 + i < (SYSTEM_AREA_SECTORS + 3) * SECTOR_SIZE by
    simp only [SYSTEM_AREA_SECTORS, SECTOR_SIZE]; omega)]
  rw [blit_lt (show 16 * 2048 + i < (SYSTEM_AREA_SECTORS + 2) * SECTOR_SIZE by
    simp only [SYSTEM_AREA_SECTORS, SECTOR_SIZE]; omega)]
  rw [blit_lt (show 16 * 2048 + i < (SYSTEM_AREA_SECTORS + 1) * SECTOR_SIZE by
    simp only [SYSTEM_AREA_SECTORS, SECTOR_SIZE]; omega)]
  rw [blit_pvd_eval _ _ _ _ _ _ _ _ _ hi]

/-- The first 7 bytes of the PVD sector are the volume descriptor header
`0x01 CD001 0x01`, whatever the other parameters. -/
lemma pvd_header_bytes (label : List Nat) (vss rlba rdl ptle ptbe : Nat)
    (now : Ts) (i : Nat) (hi : i < 7) :
    build_primary_volume_descriptor label vss rlba rdl ptle ptbe now i =
      [1, 67, 68, 48, 48, 49, 1].getD i 0 := by
  interval_cases i <;> rfl

/-- Bytes 40 .. 72 of the PVD sector hold the volume label space-padded to
32 bytes. -/
lemma pvd_label_bytes (label : List Nat) (vss rlba rdl ptle ptbe : Nat)
    (now : Ts) (hlen : label.length ≤ 32) (i : Nat) (h1 : 40 ≤ i) (h2 : i < 72) :
    build_primary_volume_descriptor label vss rlba rdl ptle ptbe now i =
      if i - 40 < label.length then label.getD (i - 40) 0 else 32 := by
  simp only [build_primary_volume_descriptor, write_ascii_padded,
    write_u16_both_endian, write_u32_both_endian]
  rw [blit_lt (show i < 881 by omega), blit_lt (show i < 830 by omega),
    blit_lt (show i < 813 by omega), blit_lt (show i < 574 by omega),
    blit_lt (show i < 574 by omega), blit_lt (show i < 446 by omega),
    blit_lt (show i < 446 by omega), blit_lt (show i < 318 by omega),
    blit_lt (show i < 318 by omega), blit_lt (show i < 190 by omega),
    blit_lt (show i < 190 by omega), blit_lt (show i < 156 by omega),
    blit_lt (show i < 148 by omega), blit_lt (show i < 140 by omega),
    blit_lt (show i < 132 by omega), blit_lt (show i < 128 by omega),
    blit_lt (show i < 124 by omega), blit_lt (show i < 120 by omega),
    blit_lt (show i < 80 by omega)]
  rw [List.take_of_length_le hlen]
  by_cases hc : i - 40 < label.length
  · rw [blit_hit (show 40 ≤ i by omega) (show i < 40 + label.length by omega),
      if_pos hc]
  · rw [blit_ge (show 40 + label.length ≤ i by omega)]
    rw [blit_hit (show 40 ≤ i by omega)
      (show i < 40 + (List.replicate 32 32).length by
        simp only [List.length_replicate]; omega)]
    rw [if_neg hc, List.getD_eq_getElem, List.getElem_replicate]
    simp only [List.length_replicate]
    omega

/-- C6: in every ISO produced by `write_cidata_iso` with an ASCII volume
label of at most 32 bytes, the sector at LBA 16 begins with the bytes
`0x01 C D 0 0 1 0x01`, and its bytes 40 .. 72 are the label padded on the
right with ASCII spaces to exactly 32 bytes. -/
theorem cidata_iso_sector16 (label : List Nat) (entries : List CidataEntry)
    (now : Ts) (hlen : label.length ≤ 32) (_hascii : ∀ b ∈ label, b < 128) :
    (sectorBytes (write_cidata_iso label entries now) 16).take 7 =
      [1, 67, 68, 48, 48, 49, 1] ∧
    ((sectorBytes (write_cidata_iso label entries now) 16).drop 40).take 32 =
      label ++ List.replicate (32 - label.length) 32 := by
  constructor
  · apply List.ext_getElem
    · simp [sectorBytes, SECTOR_SIZE]
    · intro i h1 h2
      have hi7 : i < 7 := by simpa using h2
      simp only [sectorBytes, SECTOR_SIZE, List.getElem_take, List.getElem_map,
        List.getElem_range]
      obtain ⟨vss, rlba, rdl, ptle, ptbe, heq⟩ :=
        write_cidata_iso_sector16 label entries now i (by omega)
      rw [heq, pvd_header_bytes label vss rlba rdl ptle ptbe now i hi7]
      exact List.getD_eq_getElem _ _ (by simpa using hi7)
  · apply List.ext_getElem
    · simp only [List.length_take, List.length_drop, sectorBytes, SECTOR_SIZE,
        List.length_map, List.length_range, List.length_append,
        List.length_replicate]
      omega
    · intro i h1 h2
      have hi32 : i < 32 := by
        simp only [List.length_take, List.length_drop, sectorBytes, SECTOR_SIZE,
          List.length_map, List.length_range] at h1
        omega
      simp only [sectorBytes, SECTOR_SIZE, List.getElem_take, List.getElem_drop,
        List.getElem_map, List.getElem_range]
      obtain ⟨vss, rlba, rdl, ptle, ptbe, heq⟩ :=
        write_cidata_iso_sector16 label entries now (40 + i) (by omega)
      rw [heq, pvd_label_bytes label vss rlba rdl ptle ptbe now hlen (40 + i)
        (by omega) (by omega)]
      rw [show 40 + i - 40 = i by omega]
      by_cases hc : i < label.length
      · rw [if_pos hc, List.getElem_append_left (by omega)]
        exact List.getD_eq_getElem _ _ hc
      · rw [if_neg hc, List.getElem_append_right (by omega),
          List.getElem_replicate]

/-- C6 witness: a concrete `CIDATA` image. -/
theorem cidata_iso_sector16_witness :
    (sectorBytes
        (write_cidata_iso [67, 73, 68, 65, 84, 65] [] ⟨2026, 1, 2, 3, 4, 5⟩)
        16).take 7 = [1, 67, 68, 48, 48, 49, 1] ∧
    ((sectorBytes
        (write_cidata_iso [67, 73, 68, 65, 84, 65] [] ⟨2026, 1, 2, 3, 4, 5⟩)
        16).drop 40).take 32 =
      [67, 73, 68, 65, 84, 65] ++
        List.replicate (32 - [67, 73, 68, 65, 84, 65].length) 32 :=
  cidata_iso_sector16 [67, 73, 68, 65, 84, 65] [] ⟨2026, 1, 2, 3, 4, 5⟩
    (by decide) (by decide)

end Bentobox
